import Mathlib

/-!
Shallow embedding of `gp_utils.py`: Gaussian-process surrogate training
utilities (spectrum preprocessing, per-frequency models with log-prior and
log-likelihood, MCMC MAP extraction, prediction, and posterior sampling).

Conventions of the embedding:
  * Machine floats that carry data are modelled as `FpVal` (a rational
    payload plus the IEEE special values NaN, +inf, -inf) where the
    specials matter, and as plain `ℚ` or `ℝ` where they do not.
  * Log-probability values, which the code writes as floats that may be
    `-np.inf`, are modelled as `WithBot ℚ` (chain storage) and `EReal`
    (prior/likelihood arithmetic, where `⊥` is `-inf`).
  * External library calls (the `george` GP marginal-likelihood computation, the emcee
    sampler) enter as explicit function arguments: the code under
    verification only post-processes their results.
-/

namespace GPU

/-- Model of an IEEE floating-point data value: a finite rational or one of
the special values NaN, plus infinity, minus infinity. -/
inductive FpVal where
  | nan : FpVal
  | inf : FpVal
  | ninf : FpVal
  | num : ℚ → FpVal
deriving DecidableEq, Repr

/-- The floor constant `1e-40` used by `get_smoothed_gwb`. -/
def floor40 : ℚ := 1 / 10 ^ 40

/-- Elementwise square, mirroring `spectra["gwb"][...]**2` on floats:
NaN squares to NaN, both infinities square to plus infinity. -/
def sq_fp : FpVal → FpVal
  | .nan => .nan
  | .inf => .inf
  | .ninf => .inf
  | .num x => .num (x * x)

/-- IEEE comparison `v < b` with a finite bound: NaN compares false,
minus infinity compares true, plus infinity compares false. Mirrors the
elementwise numpy comparison `gwb_spectra < 1e-40`. -/
def fp_lt (v : FpVal) (b : ℚ) : Bool :=
  match v with
  | .nan => false
  | .inf => false
  | .ninf => true
  | .num x => decide (x < b)

/-- Elementwise `np.isnan`. -/
def fp_isnan : FpVal → Bool
  | .nan => true
  | _ => false

/-- One element of the clamp step of `get_smoothed_gwb`:
`low_ind = np.where((gwb_spectra < 1e-40) | (np.isnan(gwb_spectra)))` and
`gwb_spectra[low_ind] = 1e-40`, applied to one already-squared value. -/
def clamp_fp (v : FpVal) : FpVal :=
  if fp_lt v floor40 || fp_isnan v then .num floor40 else v

/-- Python `int(n * test_frac)` for a nonnegative float fraction: truncation
toward zero, which equals the floor for the nonnegative arguments used here.
`n` is `spectra["gwb"].shape[0]`. -/
def test_ind (n : ℕ) (test_frac : ℚ) : ℕ := (⌊(n : ℚ) * test_frac⌋).toNat

/-- The data-preparation prefix of `get_smoothed_gwb`: drop the reserved
test samples, keep the first `nfreqs` frequencies, square the amplitudes
and clamp (`gwb_spectra = spectra["gwb"][test_ind:, :nfreqs, :]**2` followed
by the `1e-40` clamp). Axes: sample, then frequency, then realization. All
later steps of `get_smoothed_gwb` (log, median or mean, smoothing, std)
reduce or map these axes and keep one row per retained sample. -/
def get_smoothed_gwb_samples (gwb : List (List (List FpVal)))
    (nfreqs : ℕ) (test_frac : ℚ) : List (List (List FpVal)) :=
  (gwb.drop (test_ind gwb.length test_frac)).map
    (fun samp => (samp.take nfreqs).map (fun freq => freq.map (fun a => clamp_fp (sq_fp a))))

/-- The design matrix built by `get_parameter_values`:
`xobs = np.zeros((shape0 - test_ind, len(pars)))` filled with
`sample_params[ii + test_ind, k]`. (The later `mmb_amp` log rescaling
replaces one column in place and does not change the shape.) -/
def get_parameter_values (sample_params : List (List ℚ))
    (nsamp npars : ℕ) (test_frac : ℚ) : List (List ℚ) :=
  (List.range (nsamp - test_ind nsamp test_frac)).map
    (fun ii => (List.range npars).map
      (fun k => ((sample_params.getD (ii + test_ind nsamp test_frac) []).getD k 0)))

namespace GaussProc

/-- Source `self.pmax = np.full(len(self.par_dict) + 1, 20.0)`: upper sampling
bound per hyperparameter dimension; `npars` is `len(par_dict)`. -/
def pmax (npars : ℕ) : Fin (npars + 1) → ℚ := fun _ => 20

/-- Source `self.pmin = np.full(len(self.par_dict) + 1, -20.0)`: lower sampling
bound per hyperparameter dimension. -/
def pmin (npars : ℕ) : Fin (npars + 1) → ℚ := fun _ => -20

/-- Method `GaussProc.lnprior`: if `np.all(p <= pmax) and np.all(p >= pmin)` then
`np.sum(np.log(1 / (pmax - pmin)))`, else `-np.inf`. Hyperparameter vectors
are finite floats, modelled as rationals; the returned log value is real,
with `⊥ : EReal` standing for `-np.inf`. -/
noncomputable def lnprior (npars : ℕ) (p : Fin (npars + 1) → ℚ) : EReal :=
  if (∀ i, p i ≤ pmax npars i) ∧ (∀ i, p i ≥ pmin npars i) then
    (((∑ i, Real.log (1 / ((pmax npars i : ℝ) - (pmin npars i : ℝ)))) : ℝ) : EReal)
  else
    (⊥ : EReal)

/-- Method `GaussProc.lnlike`: the body builds a `george` GP from `exp(p)`, calls
`gp.compute` and `gp.lnlikelihood(self.y, quiet=True)` inside
`try ... except np.linalg.LinAlgError: lnlike = -np.inf`. The external
`george` evaluation is the argument `george_eval`; it returns `none` when
the covariance factorization raises `np.linalg.LinAlgError`, and the
finite float result otherwise. -/
noncomputable def lnlike (npars : ℕ)
    (george_eval : (Fin (npars + 1) → ℚ) → Option ℝ)
    (p : Fin (npars + 1) → ℚ) : EReal :=
  match george_eval p with
  | none => (⊥ : EReal)
  | some v => (v : EReal)

/-- Method `GaussProc.lnprob`: `self.lnprior(p) + self.lnlike(p)`. -/
noncomputable def lnprob (npars : ℕ)
    (george_eval : (Fin (npars + 1) → ℚ) → Option ℝ)
    (p : Fin (npars + 1) → ℚ) : EReal :=
  lnprior npars p + lnlike npars george_eval p

end GaussProc

/-- Python `str.lower` on the ASCII kernel class names, written over the
character data of the string. -/
def str_toLower (s : String) : String := ⟨s.data.map Char.toLower⟩

/-- Kernel-name validation in `GaussProc.__init__`: lowercase the list of
available kernel class names, look the lowercased requested name up with
`list.index`, and keep the canonically cased name; on a miss the code
prints the acceptable values and re-raises the `ValueError`. The error
payload records what is surfaced: the offending name and the full list of
supported kernel family names. -/
def validate_kernel (kernel_list : List String) (kernel : String) :
    Except (String × List String) String :=
  let kernel_lcase := kernel_list.map str_toLower
  match kernel_lcase.findIdx? (fun s => s == str_toLower kernel) with
  | some i => .ok (kernel_list.getD i "")
  | none => .error (kernel, kernel_list)

/-- Model of `np.argmax` on a vector of log-posterior floats (finite or `-inf`,
modelled as `WithBot ℚ`): the first index whose entry is greater than or
equal to every entry of the vector. Returns `0` on the empty vector. -/
def np_argmax (l : List (WithBot ℚ)) : ℕ :=
  l.findIdx (fun x => l.all (fun y => decide (y ≤ x)))

/-- The posterior summary that `fit_kernel_params` stores on one
`GaussProc` after the production run. -/
structure FitResult where
  emcee_flatchain : List (List ℚ)
  emcee_flatlnprob : List (WithBot ℚ)
  emcee_kernel_map : List ℚ
  center_spectra : ℚ
deriving Repr

/-- The extraction step of `fit_kernel_params` (the loop after sampling):
store `sampler.flatchain`, `sampler.flatlnprobability`,
`flatchain[np.argmax(flatlnprobability)]` as the MAP vector, and the
retained center `yobs_center[ii]` for this frequency. The emcee sampler is
external; its flattened outputs are the arguments. -/
def fit_extract (flatchain : List (List ℚ)) (flatlnprob : List (WithBot ℚ))
    (yobs_center_ii : ℚ) : FitResult :=
  { emcee_flatchain := flatchain
    emcee_flatlnprob := flatlnprob
    emcee_kernel_map := flatchain.getD (np_argmax flatlnprob) []
    center_spectra := yobs_center_ii }

/-- One iteration of the prediction loop in `hc_from_gp`: given the
conditional mean and variance returned by `gp_list[ii].predict`, the code
sets `rho_pred[ii] = (mu, 1e-5 * mu)` when `np.diag(cov_pred) < 0.0` and
`rho_pred[ii] = (mu, sqrt(var))` otherwise. -/
noncomputable def rho_pred_entry (mu_pred cov_pred : ℝ) : ℝ × ℝ :=
  if cov_pred < 0 then (mu_pred, (1 / 100000 : ℝ) * mu_pred)
  else (mu_pred, Real.sqrt cov_pred)

/-- The rest of `hc_from_gp` for one frequency: shift the predicted
residual mean by the stored center (`rho = center_spectra + rho_pred[:, 0]`)
and transform to strain (`hc = np.sqrt(10**rho)`). -/
noncomputable def hc_entry (center : ℚ) (mu_pred cov_pred : ℝ) : ℝ :=
  Real.sqrt ((10 : ℝ) ^ ((center : ℝ) + (rho_pred_entry mu_pred cov_pred).1))

/-- Chain-attribute resolution in `_sample_hc_from_gp_helper`: prefer the
legacy `self.chain` attribute when populated, fall back to
`self.emcee_flatchain`; when neither is populated the code prints
"Chains are not saved!" and the subsequent read of the never-assigned
local `chain_var` raises `UnboundLocalError`, so execution stops with the
condition surfaced. That outcome is the `Except.error` branch. -/
def resolve_chain (chain emcee_flatchain : Option (List (List ℚ))) :
    Except String (List (List ℚ)) :=
  match chain with
  | some c => .ok c
  | none =>
    match emcee_flatchain with
    | some c => .ok c
    | none => .error "Chains are not saved!"

/-- The per-frequency output of `_sample_hc_from_gp_helper` output: `nsamples`
draws, where draw `j` is `np.sqrt(10**(center + rho_sample))` and the
conditional GP sample `rho_sample` for draw `j` comes from the external
`george` sampler, modelled by the argument `rho_draw`. -/
noncomputable def sample_hc_helper (center : ℚ) (rho_draw : ℕ → ℝ)
    (nsamples : ℕ) : List ℝ :=
  (List.range nsamples).map
    (fun j => Real.sqrt ((10 : ℝ) ^ ((center : ℝ) + rho_draw j)))

/-- Numpy transpose `.T` of a rectangular two-dimensional array stored as a
list of rows: the number of columns is the length of the first row (for the
rectangular arrays produced by `pool.starmap` every row has that length,
so this matches the numpy shape), and entry `(j, i)` of the result is entry
`(i, j)` of the input. -/
def np_transpose (m : List (List ℝ)) : List (List ℝ) :=
  (List.range (m.headD []).length).map (fun j => m.map (fun row => row.getD j 0))

/-- Function `sample_hc_from_gp`: warn (non-fatally) when `nsamples < 100`; map the
helper over the frequencies (the worker pool returns one length-`nsamples`
row per frequency, shape `(freqs, samples)`); transpose to
`(samples, freqs)` before returning. The returned boolean records whether
the advisory warning was emitted. `centers` holds `center_spectra` per
fitted model and `rho_draws i j` is the external conditional draw `j` of
frequency `i`. -/
noncomputable def sample_hc_from_gp (centers : List ℚ) (rho_draws : ℕ → ℕ → ℝ)
    (nsamples : ℕ) : Bool × List (List ℝ) :=
  let warn := decide (nsamples < 100)
  let hc := (List.range centers.length).map
    (fun i => sample_hc_helper (centers.getD i 0) (rho_draws i) nsamples)
  (warn, np_transpose hc)

/-- Helper: `clamp_fp` never returns NaN, whatever the input. -/
theorem clamp_fp_ne_nan (w : FpVal) : clamp_fp w ≠ FpVal.nan := by
  unfold clamp_fp
  split
  · intro h
    exact FpVal.noConfusion h
  · rename_i hcond
    cases w <;> simp [fp_lt, fp_isnan] at hcond ⊢

/-- C2: for every hyperparameter vector strictly inside the box bounded by
`pmin` and `pmax` in each dimension, `lnprior` equals the sum over the
dimensions of `log(1 / (pmax - pmin))`; for every vector with at least one
component outside the box, `lnprior` is `-inf`. -/
theorem lnprior_uniform_box (npars : ℕ) (p : Fin (npars + 1) → ℚ) :
    ((∀ i, GaussProc.pmin npars i < p i ∧ p i < GaussProc.pmax npars i) →
      GaussProc.lnprior npars p =
        (((∑ i, Real.log (1 / ((GaussProc.pmax npars i : ℝ) - (GaussProc.pmin npars i : ℝ)))) : ℝ) : EReal)) ∧
    ((∃ i, p i < GaussProc.pmin npars i ∨ GaussProc.pmax npars i < p i) →
      GaussProc.lnprior npars p = (⊥ : EReal)) := by
  constructor
  · intro h
    unfold GaussProc.lnprior
    rw [if_pos ⟨fun i => le_of_lt (h i).2, fun i => le_of_lt (h i).1⟩]
  · rintro ⟨i, hi⟩
    unfold GaussProc.lnprior
    rw [if_neg]
    rintro ⟨hmax, hmin⟩
    rcases hi with hi | hi
    · exact absurd (hmin i) (not_le.mpr hi)
    · exact absurd (hmax i) (not_le.mpr hi)

/-- Witness for C2 at `npars = 0`: the vector `0` is strictly inside the
box and gets the finite constant; the vector `21` is outside and gets
`-inf`. -/
theorem lnprior_uniform_box_witness :
    GaussProc.lnprior 0 (fun _ => 0) =
      (((∑ i, Real.log (1 / ((GaussProc.pmax 0 i : ℝ) - (GaussProc.pmin 0 i : ℝ)))) : ℝ) : EReal) ∧
    GaussProc.lnprior 0 (fun _ => 21) = (⊥ : EReal) :=
  ⟨(lnprior_uniform_box 0 (fun _ => 0)).1
      (fun i => by constructor <;> norm_num [GaussProc.pmin, GaussProc.pmax]),
   (lnprior_uniform_box 0 (fun _ => 21)).2
      ⟨0, Or.inr (by norm_num [GaussProc.pmax])⟩⟩

/-- C10: the prior box is closed at its boundary. A vector with some
component exactly at `pmax` or `pmin` and no component outside still gets
the finite log-uniform constant, never `-inf`: the comparisons in
`lnprior` are non-strict. -/
theorem lnprior_boundary_closed (npars : ℕ) (p : Fin (npars + 1) → ℚ)
    (hin : ∀ i, GaussProc.pmin npars i ≤ p i ∧ p i ≤ GaussProc.pmax npars i)
    (_hbd : ∃ i, p i = GaussProc.pmax npars i ∨ p i = GaussProc.pmin npars i) :
    GaussProc.lnprior npars p =
      (((∑ i, Real.log (1 / ((GaussProc.pmax npars i : ℝ) - (GaussProc.pmin npars i : ℝ)))) : ℝ) : EReal) ∧
    GaussProc.lnprior npars p ≠ (⊥ : EReal) := by
  have hval : GaussProc.lnprior npars p =
      (((∑ i, Real.log (1 / ((GaussProc.pmax npars i : ℝ) - (GaussProc.pmin npars i : ℝ)))) : ℝ) : EReal) := by
    unfold GaussProc.lnprior
    rw [if_pos ⟨fun i => (hin i).2, fun i => (hin i).1⟩]
  exact ⟨hval, hval ▸ EReal.coe_ne_bot _⟩

/-- Witness for C10: the all-components-at-`+20` vector, `npars = 0`. -/
theorem lnprior_boundary_closed_witness :
    GaussProc.lnprior 0 (fun _ => 20) =
      (((∑ i, Real.log (1 / ((GaussProc.pmax 0 i : ℝ) - (GaussProc.pmin 0 i : ℝ)))) : ℝ) : EReal) ∧
    GaussProc.lnprior 0 (fun _ => 20) ≠ (⊥ : EReal) :=
  lnprior_boundary_closed 0 (fun _ => 20)
    (fun i => by constructor <;> norm_num [GaussProc.pmin, GaussProc.pmax])
    ⟨0, Or.inl rfl⟩

/-- C7: when the covariance factorization raises a linear-algebra error
(the external `george` evaluation returns `none`), `lnlike` is `-inf`
rather than an exception, and `lnprob` at that point is `-inf` as well. -/
theorem lnlike_singular_neg_inf (npars : ℕ)
    (george_eval : (Fin (npars + 1) → ℚ) → Option ℝ) (p : Fin (npars + 1) → ℚ)
    (h : george_eval p = none) :
    GaussProc.lnlike npars george_eval p = (⊥ : EReal) ∧
    GaussProc.lnprob npars george_eval p = (⊥ : EReal) := by
  have h1 : GaussProc.lnlike npars george_eval p = (⊥ : EReal) := by
    unfold GaussProc.lnlike
    rw [h]
  refine ⟨h1, ?_⟩
  unfold GaussProc.lnprob
  rw [h1, EReal.add_bot]

/-- Witness for C7: a concrete point whose factorization fails. -/
theorem lnlike_singular_neg_inf_witness :
    GaussProc.lnlike 0 (fun _ => none) (fun _ => 0) = (⊥ : EReal) ∧
    GaussProc.lnprob 0 (fun _ => none) (fun _ => 0) = (⊥ : EReal) :=
  lnlike_singular_neg_inf 0 (fun _ => none) (fun _ => 0) rfl

/-- C8: when neither the legacy `chain` field nor `emcee_flatchain` is
populated, the missing-chain condition is surfaced as an error (in
particular it is never resolved to any chain, empty or not); when either
field is populated, resolution checks both names, preferring `chain`. -/
theorem resolve_chain_spec (chain flat : Option (List (List ℚ))) :
    (chain = none → flat = none →
      resolve_chain chain flat = .error "Chains are not saved!" ∧
        ∀ c, resolve_chain chain flat ≠ .ok c) ∧
    (∀ c, chain = some c → resolve_chain chain flat = .ok c) ∧
    (chain = none → ∀ c, flat = some c → resolve_chain chain flat = .ok c) := by
  refine ⟨?_, ?_, ?_⟩
  · rintro rfl rfl
    exact ⟨rfl, fun c => by simp [resolve_chain]⟩
  · rintro c rfl
    rfl
  · rintro rfl c rfl
    rfl

/-- Witness for C8 at concrete field contents: both fields missing gives
the error; a populated legacy field resolves to it; a populated canonical
field resolves to it. -/
theorem resolve_chain_spec_witness :
    (resolve_chain none none = .error "Chains are not saved!" ∧
      ∀ c, resolve_chain none none ≠ .ok c) ∧
    resolve_chain (some [[1]]) none = .ok [[1]] ∧
    resolve_chain none (some [[2]]) = .ok [[2]] :=
  ⟨(resolve_chain_spec none none).1 rfl rfl,
   (resolve_chain_spec (some [[1]]) none).2.1 [[1]] rfl,
   (resolve_chain_spec none (some [[2]])).2.2 rfl [[2]] rfl⟩

/-- Counterexample to C4 as stated: at predicted mean `-1` and negative
predicted variance `-1`, the substituted spread is `1e-5 * mu = -1e-5`,
which is negative and differs from the claimed positive floor
`1e-5 * |mu|`. -/
theorem rho_pred_entry_counterexample :
    (rho_pred_entry (-1) (-1)).2 = -(1 / 100000 : ℝ) ∧
    (rho_pred_entry (-1) (-1)).2 < 0 ∧
    (rho_pred_entry (-1) (-1)).2 ≠ (1 / 100000 : ℝ) * |(-1 : ℝ)| := by
  have h : rho_pred_entry (-1) (-1) = (-1, (1 / 100000 : ℝ) * (-1)) := by
    unfold rho_pred_entry
    rw [if_pos (by norm_num)]
  rw [h]
  norm_num

/-- C4 amended: when the predicted variance is negative the reported
spread is `1e-5` times the predicted mean itself (not its absolute value,
so it is negative whenever the mean is negative); when the variance is
non-negative the spread is its square root. -/
theorem rho_pred_entry_amended (mu var : ℝ) :
    (var < 0 → rho_pred_entry mu var = (mu, (1 / 100000 : ℝ) * mu)) ∧
    (0 ≤ var → rho_pred_entry mu var = (mu, Real.sqrt var)) := by
  constructor
  · intro h
    unfold rho_pred_entry
    rw [if_pos h]
  · intro h
    unfold rho_pred_entry
    rw [if_neg (not_lt.mpr h)]

/-- Witness for the amended C4: concrete negative-variance and
non-negative-variance evaluations. -/
theorem rho_pred_entry_amended_witness :
    rho_pred_entry 2 (-3) = (2, (1 / 100000 : ℝ) * 2) ∧
    rho_pred_entry 2 3 = (2, Real.sqrt 3) :=
  ⟨(rho_pred_entry_amended 2 (-3)).1 (by norm_num),
   (rho_pred_entry_amended 2 3).2 (by norm_num)⟩

/-- Counterexample to C3 as stated: the input value plus infinity is
non-finite, yet after squaring it is not replaced by `1e-40`: the clamp
condition `(v < 1e-40) | isnan(v)` is false at plus infinity. -/
theorem clamp_inf_counterexample :
    clamp_fp (sq_fp FpVal.inf) = FpVal.inf ∧
    clamp_fp (sq_fp FpVal.inf) ≠ FpVal.num floor40 := by
  constructor <;> simp [clamp_fp, sq_fp, fp_lt, fp_isnan]

/-- C3 amended: every input amplitude whose square is `≤ 1e-40`, and every
NaN, ends up as exactly `1e-40` after the squaring-and-clamp step of
`get_smoothed_gwb` (a square exactly equal to `1e-40` is left unchanged at
that same value); infinite inputs square to plus infinity and pass through
unclamped. Consequently no NaN survives into the arrays
`get_smoothed_gwb` takes logarithms of. -/
theorem clamp_floor_amended :
    (∀ a : FpVal,
      (sq_fp a = FpVal.nan ∨ ∃ x, sq_fp a = FpVal.num x ∧ x ≤ floor40) →
        clamp_fp (sq_fp a) = FpVal.num floor40) ∧
    (∀ gwb nfreqs tf, ∀ s ∈ get_smoothed_gwb_samples gwb nfreqs tf,
      ∀ f ∈ s, ∀ v ∈ f, v ≠ FpVal.nan) := by
  constructor
  · rintro a (h | ⟨x, hx, hle⟩)
    · rw [h]
      simp [clamp_fp, fp_lt, fp_isnan]
    · rw [hx]
      rcases lt_or_eq_of_le hle with hlt | rfl
      · simp only [clamp_fp, fp_lt, fp_isnan, decide_eq_true_eq]
        rw [if_pos]
        simp [hlt]
      · simp [clamp_fp]
  · intro gwb nfreqs tf s hs f hf v hv
    unfold get_smoothed_gwb_samples at hs
    rcases List.mem_map.mp hs with ⟨s0, _, rfl⟩
    rcases List.mem_map.mp hf with ⟨f0, _, rfl⟩
    rcases List.mem_map.mp hv with ⟨a, _, rfl⟩
    exact clamp_fp_ne_nan (sq_fp a)

/-- Witness for the amended C3: a zero amplitude is clamped to exactly
`1e-40`, and a concrete preprocessed ensemble containing a NaN and a
tiny value holds no NaN. -/
theorem clamp_floor_amended_witness :
    clamp_fp (sq_fp (FpVal.num 0)) = FpVal.num floor40 ∧
    (∀ s ∈ get_smoothed_gwb_samples [[[FpVal.nan, FpVal.num 0]]] 1 0,
      ∀ f ∈ s, ∀ v ∈ f, v ≠ FpVal.nan) :=
  ⟨clamp_floor_amended.1 (FpVal.num 0)
      (Or.inr ⟨0, by simp [sq_fp], by norm_num [floor40]⟩),
   clamp_floor_amended.2 [[[FpVal.nan, FpVal.num 0]]] 1 0⟩

/-- Helper: `getD` at an in-range index is the indexed element. -/
theorem getD_eq_of_lt {α : Type _} (l : List α) (d : α) {n : ℕ}
    (h : n < l.length) : l.getD n d = l[n] := by
  simp [List.getElem?_eq_getElem h]

/-- Helper: a nonempty list over a linear order has a member that bounds
every member from above. -/
theorem exists_max_of_ne_nil (l : List (WithBot ℚ)) (h : l ≠ []) :
    ∃ m ∈ l, ∀ b ∈ l, b ≤ m := by
  obtain ⟨m, hm⟩ : ∃ m, l.max? = some m := by
    cases hmax : l.max? with
    | none => exact absurd (List.max?_eq_none_iff.mp hmax) h
    | some m => exact ⟨m, rfl⟩
  refine ⟨m, List.max?_mem max_choice hm, ?_⟩
  exact (List.max?_le_iff (fun a b c => max_le_iff) hm).mp (le_refl m)

/-- C6: a kernel name with no case-insensitive match among the supported
kernel class names makes construction fail with an error that lists the
supported names; a case-insensitive match never errors and resolves to a
supported name that matches the request case-insensitively. -/
theorem validate_kernel_spec (kl : List String) (k : String) :
    ((∀ s ∈ kl, str_toLower s ≠ str_toLower k) →
      validate_kernel kl k = .error (k, kl)) ∧
    ((∃ s ∈ kl, str_toLower s = str_toLower k) →
      ∃ s, validate_kernel kl k = .ok s ∧ s ∈ kl ∧ str_toLower s = str_toLower k) := by
  constructor
  · intro h
    have hnone : (kl.map str_toLower).findIdx? (fun s => s == str_toLower k) = none := by
      rw [List.findIdx?_eq_none_iff]
      intro x hx
      rcases List.mem_map.mp hx with ⟨s0, hs0, rfl⟩
      simpa using h s0 hs0
    simp [validate_kernel, hnone]
  · rintro ⟨s0, hmem, heq⟩
    have hex : ∃ x, x ∈ kl.map str_toLower ∧ (fun s => s == str_toLower k) x = true :=
      ⟨str_toLower s0, List.mem_map_of_mem _ hmem, by simp [heq]⟩
    have hsome := List.findIdx?_eq_some_of_exists hex
    obtain ⟨hilen, hpi, -⟩ := List.findIdx?_eq_some_iff_getElem.mp hsome
    have hilen' : (kl.map str_toLower).findIdx (fun s => s == str_toLower k) < kl.length := by
      simpa using hilen
    refine ⟨kl.getD ((kl.map str_toLower).findIdx (fun s => s == str_toLower k)) "",
      ?_, ?_, ?_⟩
    · simp only [validate_kernel]
      rw [hsome]
    · rw [getD_eq_of_lt kl "" hilen']
      exact List.getElem_mem hilen'
    · rw [getD_eq_of_lt kl "" hilen']
      have := hpi
      rw [List.getElem_map] at this
      exact of_decide_eq_true (by simpa using this)

/-- Witness for C6: with supported names `ExpSquaredKernel` and
`Matern32Kernel`, the request `expsquaredkernel` resolves (to a supported
name, case-insensitively equal) and the request `NotAKernel` errors with
the full list of supported names. -/
theorem validate_kernel_spec_witness :
    (∃ s, validate_kernel ["ExpSquaredKernel", "Matern32Kernel"] "expsquaredkernel" = .ok s ∧
      s ∈ ["ExpSquaredKernel", "Matern32Kernel"] ∧
      str_toLower s = str_toLower "expsquaredkernel") ∧
    validate_kernel ["ExpSquaredKernel", "Matern32Kernel"] "NotAKernel" =
      .error ("NotAKernel", ["ExpSquaredKernel", "Matern32Kernel"]) :=
  ⟨(validate_kernel_spec ["ExpSquaredKernel", "Matern32Kernel"] "expsquaredkernel").2
      ⟨"ExpSquaredKernel", by simp, by decide⟩,
   (validate_kernel_spec ["ExpSquaredKernel", "Matern32Kernel"] "NotAKernel").1
      (by decide)⟩

/-- C1: after the extraction step of `fit_kernel_params`, the stored MAP
hyperparameter vector is the entry of the stored flattened chain at an
index at which the stored flattened log-posterior sequence attains its
maximum over the whole chain. -/
theorem fit_extract_map_is_argmax (flatchain : List (List ℚ))
    (flatlnprob : List (WithBot ℚ)) (c : ℚ)
    (hne : flatlnprob ≠ []) (_hlen : flatchain.length = flatlnprob.length) :
    ∃ i < flatlnprob.length,
      (fit_extract flatchain flatlnprob c).emcee_kernel_map =
        (fit_extract flatchain flatlnprob c).emcee_flatchain.getD i [] ∧
      ∀ j < flatlnprob.length,
        (fit_extract flatchain flatlnprob c).emcee_flatlnprob.getD j ⊥ ≤
          (fit_extract flatchain flatlnprob c).emcee_flatlnprob.getD i ⊥ := by
  obtain ⟨m, hmem, hmax⟩ := exists_max_of_ne_nil flatlnprob hne
  have hex : ∃ x ∈ flatlnprob,
      (fun x => flatlnprob.all (fun y => decide (y ≤ x))) x = true :=
    ⟨m, hmem, by
      rw [List.all_eq_true]
      intro y hy
      simpa using hmax y hy⟩
  have hlt : np_argmax flatlnprob < flatlnprob.length :=
    List.findIdx_lt_length_of_exists hex
  refine ⟨np_argmax flatlnprob, hlt, rfl, ?_⟩
  have hall : flatlnprob.all
      (fun y => decide (y ≤ flatlnprob[np_argmax flatlnprob])) = true :=
    List.findIdx_getElem (w := hlt)
  intro j hj
  show flatlnprob.getD j ⊥ ≤ flatlnprob.getD (np_argmax flatlnprob) ⊥
  rw [getD_eq_of_lt flatlnprob ⊥ hj, getD_eq_of_lt flatlnprob ⊥ hlt]
  have := List.all_eq_true.mp hall flatlnprob[j] (List.getElem_mem hj)
  simpa using this

/-- Witness for C1 on a concrete two-entry chain whose second entry has
the larger log-posterior. -/
theorem fit_extract_map_is_argmax_witness :
    ∃ i < ([(0 : WithBot ℚ), 1] : List (WithBot ℚ)).length,
      (fit_extract [[5], [7]] [(0 : WithBot ℚ), 1] 3).emcee_kernel_map =
        (fit_extract [[5], [7]] [(0 : WithBot ℚ), 1] 3).emcee_flatchain.getD i [] ∧
      ∀ j < ([(0 : WithBot ℚ), 1] : List (WithBot ℚ)).length,
        (fit_extract [[5], [7]] [(0 : WithBot ℚ), 1] 3).emcee_flatlnprob.getD j ⊥ ≤
          (fit_extract [[5], [7]] [(0 : WithBot ℚ), 1] 3).emcee_flatlnprob.getD i ⊥ :=
  fit_extract_map_is_argmax [[5], [7]] [(0 : WithBot ℚ), 1] 3 (by simp) (by simp)

/-- C5: invoked with a nonempty list of F fitted per-frequency models and
S requested samples, `sample_hc_from_gp` returns a table of shape (S, F)
(the transpose of the per-worker (F, S) rows, entry (j, i) being draw j of
frequency i), and the advisory-warning flag is set exactly when S < 100
while the table is returned either way. -/
theorem sample_hc_from_gp_shape (centers : List ℚ) (rho_draws : ℕ → ℕ → ℝ)
    (nsamples : ℕ) (hne : centers ≠ []) :
    (sample_hc_from_gp centers rho_draws nsamples).1 = decide (nsamples < 100) ∧
    (sample_hc_from_gp centers rho_draws nsamples).2.length = nsamples ∧
    (∀ row ∈ (sample_hc_from_gp centers rho_draws nsamples).2,
      row.length = centers.length) ∧
    (∀ j, j < nsamples → ∀ i, i < centers.length →
      (((sample_hc_from_gp centers rho_draws nsamples).2.getD j []).getD i 0 =
        Real.sqrt ((10 : ℝ) ^ (((centers.getD i 0 : ℚ) : ℝ) + rho_draws i j)))) := by
  have hrowlen : ∀ i, (sample_hc_helper (centers.getD i 0) (rho_draws i) nsamples).length
      = nsamples := fun i => by simp [sample_hc_helper]
  have hhc2 : (sample_hc_from_gp centers rho_draws nsamples).2 =
      np_transpose ((List.range centers.length).map
        (fun i => sample_hc_helper (centers.getD i 0) (rho_draws i) nsamples)) := rfl
  have hheadlen : (((List.range centers.length).map
      (fun i => sample_hc_helper (centers.getD i 0) (rho_draws i) nsamples)).headD []).length
      = nsamples := by
    have hF : 0 < centers.length := List.length_pos.mpr hne
    cases hr : List.range centers.length with
    | nil =>
      exfalso
      have h0 := List.range_eq_nil.mp hr
      omega
    | cons a t =>
      simp only [List.map_cons, List.headD_cons]
      exact hrowlen a
  refine ⟨rfl, ?_, ?_, ?_⟩
  · rw [hhc2]
    unfold np_transpose
    rw [List.length_map, List.length_range, hheadlen]
  · intro row hrow
    rw [hhc2] at hrow
    unfold np_transpose at hrow
    rcases List.mem_map.mp hrow with ⟨j, _, rfl⟩
    simp
  · intro j hj i hi
    rw [hhc2]
    unfold np_transpose
    rw [hheadlen]
    simp [sample_hc_helper, List.getD_eq_getElem?_getD, List.getElem?_map,
      List.getElem?_range hj, List.getElem?_range hi, hj, hi]

/-- Witness for C5: two frequencies, three samples (below the advisory
threshold, so the warning flag is set and a 3-by-2 table is still
returned). -/
theorem sample_hc_from_gp_shape_witness :
    (sample_hc_from_gp [1, 2] (fun _ _ => 0) 3).1 = decide ((3 : ℕ) < 100) ∧
    (sample_hc_from_gp [1, 2] (fun _ _ => 0) 3).2.length = 3 ∧
    (∀ row ∈ (sample_hc_from_gp [1, 2] (fun _ _ => 0) 3).2,
      row.length = ([(1 : ℚ), 2] : List ℚ).length) ∧
    (∀ j, j < 3 → ∀ i, i < ([(1 : ℚ), 2] : List ℚ).length →
      (((sample_hc_from_gp [1, 2] (fun _ _ => 0) 3).2.getD j []).getD i 0 =
        Real.sqrt ((10 : ℝ) ^ (((([(1 : ℚ), 2] : List ℚ).getD i 0 : ℚ) : ℝ) + 0)))) :=
  sample_hc_from_gp_shape [1, 2] (fun _ _ => 0) 3 (by simp)

/-- C9: for the same ensemble and held-out fraction, the design matrix of
`get_parameter_values` has exactly as many rows as there are training
samples retained by `get_smoothed_gwb`: both drop the same leading
`int(total_samples * test_frac)` samples. -/
theorem design_rows_match_training_rows (gwb : List (List (List FpVal)))
    (sample_params : List (List ℚ)) (nfreqs npars : ℕ) (tf : ℚ)
    (_h0 : 0 ≤ tf) (_h1 : tf ≤ 1) :
    (get_parameter_values sample_params gwb.length npars tf).length =
      (get_smoothed_gwb_samples gwb nfreqs tf).length ∧
    (get_parameter_values sample_params gwb.length npars tf).length =
      gwb.length - test_ind gwb.length tf := by
  constructor
  · simp [get_parameter_values, get_smoothed_gwb_samples]
  · simp [get_parameter_values]

/-- Witness for C9: four samples, one frequency, one parameter, a quarter
held out: both sides retain three rows. -/
theorem design_rows_match_training_rows_witness :
    ((get_parameter_values [[1], [2], [3], [4]]
        ([[[FpVal.num 1]], [[FpVal.num 2]], [[FpVal.num 3]], [[FpVal.num 4]]] :
          List (List (List FpVal))).length 1 (1 / 4)).length =
      (get_smoothed_gwb_samples
        [[[FpVal.num 1]], [[FpVal.num 2]], [[FpVal.num 3]], [[FpVal.num 4]]] 1 (1 / 4)).length ∧
     (get_parameter_values [[1], [2], [3], [4]]
        ([[[FpVal.num 1]], [[FpVal.num 2]], [[FpVal.num 3]], [[FpVal.num 4]]] :
          List (List (List FpVal))).length 1 (1 / 4)).length =
      ([[[FpVal.num 1]], [[FpVal.num 2]], [[FpVal.num 3]], [[FpVal.num 4]]] :
          List (List (List FpVal))).length -
        test_ind ([[[FpVal.num 1]], [[FpVal.num 2]], [[FpVal.num 3]], [[FpVal.num 4]]] :
          List (List (List FpVal))).length (1 / 4)) :=
  design_rows_match_training_rows
    [[[FpVal.num 1]], [[FpVal.num 2]], [[FpVal.num 3]], [[FpVal.num 4]]]
    [[1], [2], [3], [4]] 1 1 (1 / 4) (by norm_num) (by norm_num)

end GPU
